import Mathlib

/-!
# Verification of the country-analytics transformation library

A shallow embedding of the data-transformation functions of
`analysis_vaex.py` (the vaex-based EDA utilities behind the Streamlit
dashboard), together with proofs of the specification's testable
properties.

Modelling conventions:
* A vaex `DataFrame` is modelled as a `Table`: an ordered list of column
  names plus a list of rows, each row a list of cell `Value`s aligned
  positionally with the column list.
* Numeric cells are embedded as integers (`vInt`) or exact rationals
  (`vRat`); float division is modelled as exact rational division.
* Missing/null cells are `vNull`.  As in vaex, a numeric comparison
  against a null value is false (the row is masked out by a filter).
* vaex's `DataFrame.sort` is modelled as a stable descending sort
  (`List.mergeSort` on the sort key); `head n` takes the first `n` rows;
  column selection `df[cols]` fails on an absent column.
* vaex's `groupby` discovers groups in first-appearance order and is
  modelled accordingly; aggregates `sum`/`mean` ignore null cells.
* The Python `ValueError`s raised by the library are modelled by the
  `Err` type, and fallible functions return `Except Err Table`.
-/

/-- A cell value of a table: string, integer, exact rational (standing in
for the float columns), or null/missing. -/
inductive Value where
  | vStr (s : String)
  | vInt (n : Int)
  | vRat (q : ℚ)
  | vNull
deriving DecidableEq, Repr

/-- A row is a list of cells, aligned positionally with the table's
column-name list. -/
abbrev Row := List Value

/-- A table: ordered column names plus rows.  (vaex invariant: every row
has exactly one cell per column; stated separately as `Table.WF`.) -/
structure Table where
  cols : List String
  rows : List Row
deriving DecidableEq, Repr

/-- Well-formedness: every row has exactly one cell per column. -/
def Table.WF (t : Table) : Prop := ∀ r ∈ t.rows, r.length = t.cols.length

/-- Model of vaex's `c in df.get_column_names()` check. -/
def Table.hasCol (t : Table) (c : String) : Bool := t.cols.contains c

/-- The cell of row `r` in column `c` (null when the column is absent,
matching a masked value). -/
def Table.getVal (t : Table) (r : Row) (c : String) : Value :=
  (r[t.cols.indexOf c]?).getD .vNull

/-- Model of `df[c] = expr`: overwrite column `c` when present, else append it;
`f` computes the new cell from the whole row. -/
def Table.setCol (t : Table) (c : String) (f : Row → Value) : Table :=
  if t.cols.contains c then
    { cols := t.cols, rows := t.rows.map fun r => r.set (t.cols.indexOf c) (f r) }
  else
    { cols := t.cols ++ [c], rows := t.rows.map fun r => r ++ [f r] }

/-- Model of `df[boolean_expression]`: keep the rows satisfying the predicate,
preserving order. -/
def Table.filterRows (t : Table) (p : Row → Bool) : Table :=
  { cols := t.cols, rows := t.rows.filter p }

/-- Numeric view of a cell: integers and rationals are numeric, strings
and nulls are not. -/
def Value.toRat? : Value → Option ℚ
  | .vInt n => some (n : ℚ)
  | .vRat q => some q
  | _ => none

/-- Model of vaex's `expr > 0`: false on null / non-numeric cells. -/
def Value.gtZero (v : Value) : Bool :=
  match v.toRat? with
  | some q => decide (0 < q)
  | none => false

/-- Model of vaex's `expr >= m`: false on null / non-numeric cells. -/
def Value.geInt (v : Value) (m : Int) : Bool :=
  match v.toRat? with
  | some q => decide ((m : ℚ) ≤ q)
  | none => false

/-- Model of vaex's `expr <= m`: false on null / non-numeric cells. -/
def Value.leInt (v : Value) (m : Int) : Bool :=
  match v.toRat? with
  | some q => decide (q ≤ (m : ℚ))
  | none => false

/-- Model of `expr.isin(list_of_strings)`: only a string cell can match. -/
def Value.isin (v : Value) (l : List String) : Bool :=
  match v with
  | .vStr s => l.contains s
  | _ => false

/-- Model of `expr.fillna(d)` applied cell-wise: `v.fillna d` is `d` when `v` is
null and `v` otherwise. -/
def Value.fillna : Value → Value → Value
  | .vNull, d => d
  | v, _ => v

/-- Row-wise `population / area` (exact rational division; null when an
operand is not numeric). -/
def Value.divV (v1 v2 : Value) : Value :=
  match v1.toRat?, v2.toRat? with
  | some a, some b => .vRat (a / b)
  | _, _ => .vNull

/-- Errors raised by the library (`ValueError`s in the Python source, and
vaex's own error on selecting an absent column). -/
inductive Err where
  | unsupportedFormat
  | missingColumn (c : String)
deriving DecidableEq, Repr

/-- Step 1 of `clean_countries`: `vx2["capital"] =
vx2.capital.fillna("Unknown")`, guarded by the column check. -/
def cleanCapital (vx2 : Table) : Table :=
  if vx2.hasCol "capital"
    then vx2.setCol "capital" fun r => (vx2.getVal r "capital").fillna (.vStr "Unknown")
    else vx2

/-- Step 2 of `clean_countries`: `vx2 = vx2[vx2.population > 0]`,
guarded by the column check. -/
def cleanPop (vx2 : Table) : Table :=
  if vx2.hasCol "population"
    then vx2.filterRows fun r => (vx2.getVal r "population").gtZero
    else vx2

/-- Step 3 of `clean_countries`: `vx2 = vx2[vx2.area > 0]`, guarded by
the column check. -/
def cleanArea (vx2 : Table) : Table :=
  if vx2.hasCol "area"
    then vx2.filterRows fun r => (vx2.getVal r "area").gtZero
    else vx2

/-- Step 4 of `clean_countries`: `vx2["density"] = vx2.population /
vx2.area`, guarded by the two column checks. -/
def cleanDensity (vx2 : Table) : Table :=
  if vx2.hasCol "population" && vx2.hasCol "area"
    then vx2.setCol "density" fun r => (vx2.getVal r "population").divV (vx2.getVal r "area")
    else vx2

/-- Model of `clean_countries` (analysis_vaex.py, lines 31-54): fill missing
capital with "Unknown"; drop rows with population ≤ 0 then rows with
area ≤ 0 (each step only when the column exists); finally, when both
population and area exist, add the density column `population / area`.
The source's sequential reassignments of `vx2` are the composition of
the four steps above. -/
def clean_countries (vx : Table) : Table :=
  cleanDensity (cleanArea (cleanPop (cleanCapital vx)))

/-- The `region` argument of `filter_countries`: `None`, a single string,
or a list of strings. -/
inductive RegionArg where
  | noRegion
  | one (s : String)
  | many (l : List String)
deriving DecidableEq, Repr

/-- The normalisation `region_list = [region] if isinstance(region, str)
else region` of the source. -/
def RegionArg.toList? : RegionArg → Option (List String)
  | .noRegion => none
  | .one s => some [s]
  | .many l => some l

/-- Model of `filter_countries` (analysis_vaex.py, lines 60-88): keep rows whose
region is in the selector (when a selector is given and the column
exists), then rows with `population >= min_pop` and, when `max_pop` is
given, `population <= max_pop` (when the column exists). -/
def filter_countries (vx : Table) (region : RegionArg) (min_pop : Int)
    (max_pop : Option Int) : Table :=
  let vx_f := vx
  let vx_f := match region.toList? with
    | none => vx_f
    | some region_list =>
      if vx_f.hasCol "region"
        then vx_f.filterRows fun r => (vx_f.getVal r "region").isin region_list
        else vx_f
  if vx_f.hasCol "population" then
    let vx_f := vx_f.filterRows fun r => (vx_f.getVal r "population").geInt min_pop
    match max_pop with
    | none => vx_f
    | some m => vx_f.filterRows fun r => (vx_f.getVal r "population").leInt m
  else vx_f

/-- The key a numeric column is sorted on (nulls sort as 0; the claims
only exercise fully numeric sort columns). -/
def Value.sortKey (v : Value) : ℚ := v.toRat?.getD 0

/-- The descending comparison on column `c`: row `r1` may come before
`r2` when `r2`'s key is at most `r1`'s. -/
def rankLE (t : Table) (c : String) (r1 r2 : Row) : Bool :=
  decide ((t.getVal r2 c).sortKey ≤ (t.getVal r1 c).sortKey)

/-- Model of vaex's `df.sort(c, ascending=False)`, a stable
descending sort on the column's numeric key. -/
def Table.sortDesc (t : Table) (c : String) : Table :=
  { cols := t.cols, rows := t.rows.mergeSort (rankLE t c) }

/-- The projection of one row to the columns `cs` (cells of absent
columns read as null; `Table.project` rules that case out first). -/
def Table.projectRow (t : Table) (cs : List String) (r : Row) : Row :=
  cs.map fun c => t.getVal r c

/-- Model of vaex's `df[cols]`: select the named columns, failing on the first
absent one. -/
def Table.project (t : Table) (cs : List String) : Except Err Table :=
  match cs.find? (fun c => !(t.cols.contains c)) with
  | some c => .error (.missingColumn c)
  | none => .ok { cols := cs, rows := t.rows.map (t.projectRow cs) }

/-- Model of `df.head(n)`: the first `n` rows. -/
def Table.head (t : Table) (n : Nat) : Table :=
  { cols := t.cols, rows := t.rows.take n }

/-- Model of `top_population` (analysis_vaex.py, lines 94-106): default column
set, then sort by population descending, project, truncate to `n`.
(The source's `return` on line 106 is mis-indented to module level — a
Python `SyntaxError` — so this embeds the unambiguous intent of the
docstring, the spec, and the caller in app.py.) -/
def top_population (vx : Table) (n : Nat) (cols? : Option (List String)) :
    Except Err Table :=
  let cols := match cols? with
    | some cs => cs
    | none =>
      let base := ["cca3", "name_common", "region", "population", "area"]
      if vx.hasCol "density" then base ++ ["density"] else base
  ((vx.sortDesc "population").project cols).map fun t => t.head n

/-- Model of `top_density` (analysis_vaex.py, lines 109-123): fail when the
density column is absent; otherwise sort by density descending, project,
truncate to `n`. -/
def top_density (vx : Table) (n : Nat) (cols? : Option (List String)) :
    Except Err Table :=
  if vx.hasCol "density" then
    let cols := match cols? with
      | some cs => cs
      | none => ["cca3", "name_common", "region", "population", "area", "density"]
    ((vx.sortDesc "density").project cols).map fun t => t.head n
  else .error (.missingColumn "density")

/-- Group keys in first-appearance order (vaex's deterministic
group-discovery order). -/
def dedupFirst : List Value → List Value
  | [] => []
  | v :: vs => v :: dedupFirst (vs.filter fun w => !(w == v))
termination_by l => l.length
decreasing_by
  exact Nat.lt_succ_of_le (List.length_filter_le _ _)

/-- Model of `vaex.agg.sum(c)` over a group: the sum of the non-null numeric
cells. -/
def sumAgg (vals : List Value) : Value :=
  .vRat (vals.filterMap Value.toRat?).sum

/-- Model of `vaex.agg.mean(c)` over a group: the mean of the non-null numeric
cells (null for an all-null group). -/
def meanAgg (vals : List Value) : Value :=
  let xs := vals.filterMap Value.toRat?
  if xs.length = 0 then .vNull else .vRat (xs.sum / (xs.length : ℚ))

/-- The aggregate row `agg_by_region` produces for the group of rows
with region key `k`. -/
def aggRowFor (vx : Table) (k : Value) : Row :=
  let grp := vx.rows.filter fun r => vx.getVal r "region" == k
  [k, .vInt (grp.length : Int)]
    ++ (if vx.hasCol "population"
        then [sumAgg (grp.map fun r => vx.getVal r "population"),
              meanAgg (grp.map fun r => vx.getVal r "population")]
        else [])
    ++ (if vx.hasCol "area"
        then [meanAgg (grp.map fun r => vx.getVal r "area")] else [])
    ++ (if vx.hasCol "density"
        then [meanAgg (grp.map fun r => vx.getVal r "density")] else [])

/-- The output column list of `agg_by_region` (the group key, the count,
and the aggregates of whichever source columns are present). -/
def aggColsFor (vx : Table) : List String :=
  ["region", "country_count"]
    ++ (if vx.hasCol "population" then ["total_population", "avg_population"] else [])
    ++ (if vx.hasCol "area" then ["avg_area"] else [])
    ++ (if vx.hasCol "density" then ["avg_density"] else [])

/-- Model of `agg_by_region` (analysis_vaex.py, lines 129-151): fail when region
is absent; otherwise group by region (count per group, plus
sum/mean of population, mean of area, mean of density for the columns
present) and sort descending by the count. -/
def agg_by_region (vx : Table) : Except Err Table :=
  if vx.hasCol "region" then
    let keys := dedupFirst (vx.rows.map fun r => vx.getVal r "region")
    let t : Table := { cols := aggColsFor vx, rows := keys.map (aggRowFor vx) }
    .ok (t.sortDesc "country_count")
  else .error (.missingColumn "region")

/-- Python's `str.lower()`, character-wise. -/
def strToLower (s : String) : String := ⟨s.data.map Char.toLower⟩

/-- Python's `str.endswith(suff)`: the character sequence of `suff` is a
suffix of that of `s`. -/
def strEndsWith (s suff : String) : Bool := suff.data.isSuffixOf s.data

/-- Model of `load_vaex_df` (analysis_vaex.py, lines 13-25): dispatch on the
lower-cased file extension — `.parquet`/`.hdf5` to the columnar-binary
reader (`vaex.open`), `.csv` to the delimited-text reader
(`vaex.from_csv`) — and fail with the unsupported-format error
otherwise.  The two readers are external collaborators, passed in as
parameters. -/
def load_vaex_df (openFile fromCsv : String → Table) (path : String) :
    Except Err Table :=
  let p := strToLower path
  if strEndsWith p ".parquet" || strEndsWith p ".hdf5" then .ok (openFile path)
  else if strEndsWith p ".csv" then .ok (fromCsv path)
  else .error .unsupportedFormat

/-- The single row predicate `filter_countries` amounts to. -/
def filterPred (t : Table) (reg : RegionArg) (m : Int) (M : Option Int) (r : Row) : Bool :=
  (match reg.toList? with
   | none => true
   | some L => if t.hasCol "region" then (t.getVal r "region").isin L else true) &&
  (if t.hasCol "population" then
     (t.getVal r "population").geInt m &&
     (match M with
      | none => true
      | some mm => (t.getVal r "population").leInt mm)
   else true)

/-- The spec's example input: (code, population, area) for USA and
France. -/
def exCountries : Table :=
  ⟨["cca3", "population", "area"],
    [[.vStr "USA", .vInt 331000000, .vInt 9834000],
     [.vStr "FRA", .vInt 67000000, .vInt 551695]]⟩

/-- The density 331000000 / 9834000 the Cleaner derives for USA. -/
def usaDensity : ℚ := ((331000000 : Int) : ℚ) / ((9834000 : Int) : ℚ)

/-- The density 67000000 / 551695 the Cleaner derives for France. -/
def fraDensity : ℚ := ((67000000 : Int) : ℚ) / ((551695 : Int) : ℚ)

/-- USA's row after cleaning. -/
def usaCleanRow : Row := [.vStr "USA", .vInt 331000000, .vInt 9834000, .vRat usaDensity]

/-- France's row after cleaning. -/
def fraCleanRow : Row := [.vStr "FRA", .vInt 67000000, .vInt 551695, .vRat fraDensity]

/-- The example table after cleaning. -/
def exCleaned : Table :=
  ⟨["cca3", "population", "area", "density"], [usaCleanRow, fraCleanRow]⟩

/-! ## Basic lemmas about the table operations -/

lemma Table.hasCol_iff_mem (t : Table) (c : String) :
    t.hasCol c = true ↔ c ∈ t.cols := by
  simp [Table.hasCol]

@[simp] lemma Table.filterRows_cols (t : Table) (p : Row → Bool) :
    (t.filterRows p).cols = t.cols := rfl

@[simp] lemma Table.filterRows_rows (t : Table) (p : Row → Bool) :
    (t.filterRows p).rows = t.rows.filter p := rfl

@[simp] lemma Table.sortDesc_cols (t : Table) (c : String) :
    (t.sortDesc c).cols = t.cols := rfl

@[simp] lemma Table.head_cols (t : Table) (n : Nat) : (t.head n).cols = t.cols := rfl

@[simp] lemma Table.head_rows (t : Table) (n : Nat) : (t.head n).rows = t.rows.take n := rfl

lemma Table.getVal_eq_of_cols {t1 t2 : Table} (h : t1.cols = t2.cols) :
    t1.getVal = t2.getVal := by
  funext r c
  unfold Table.getVal
  rw [h]

lemma Table.hasCol_eq_of_cols {t1 t2 : Table} (h : t1.cols = t2.cols) :
    t1.hasCol = t2.hasCol := by
  funext c
  unfold Table.hasCol
  rw [h]

lemma Table.mem_filterRows {t : Table} {p : Row → Bool} {r : Row} :
    r ∈ (t.filterRows p).rows ↔ r ∈ t.rows ∧ p r = true := by
  simp [Table.filterRows, List.mem_filter]

lemma Table.filterRows_eq_self {t : Table} {p : Row → Bool}
    (h : ∀ r ∈ t.rows, p r = true) : t.filterRows p = t := by
  cases t with
  | mk cols rows => simp [Table.filterRows, List.filter_eq_self.mpr h]

/-- A list is unchanged by writing back the value it already holds. -/
lemma List.set_of_getElem_eq {α : Type} {l : List α} {i : Nat} {v : α}
    (h : l[i]? = some v) : l.set i v = l := by
  induction l generalizing i with
  | nil => simp at h
  | cons a t ih =>
    cases i with
    | zero =>
      simp at h
      simp [h]
    | succ n =>
      simp only [List.getElem?_cons_succ] at h
      simp [ih h]

lemma Value.gtZero_iff {v : Value} :
    v.gtZero = true ↔ ∃ q : ℚ, v.toRat? = some q ∧ 0 < q := by
  cases v <;> simp [Value.gtZero, Value.toRat?]

lemma Value.fillna_ne_null {v d : Value} (hd : d ≠ .vNull) :
    v.fillna d ≠ .vNull := by
  cases v <;> simp [Value.fillna]
  exact hd

/-! ## C6: loader dispatch -/

/-- C6: `load_vaex_df` dispatches on the (lower-cased) file extension:
`.parquet`/`.hdf5` go to the columnar-binary reader, `.csv` to the
delimited-text reader, and it fails with the unsupported-format error
exactly when the extension matches none of the recognized formats. -/
theorem load_vaex_df_dispatch (openFile fromCsv : String → Table) (path : String) :
    (load_vaex_df openFile fromCsv path = .error .unsupportedFormat ↔
      ¬(strEndsWith (strToLower path) ".parquet" = true ∨
        strEndsWith (strToLower path) ".hdf5" = true ∨
        strEndsWith (strToLower path) ".csv" = true)) ∧
    ((strEndsWith (strToLower path) ".parquet" = true ∨
        strEndsWith (strToLower path) ".hdf5" = true) →
      load_vaex_df openFile fromCsv path = .ok (openFile path)) ∧
    (strEndsWith (strToLower path) ".parquet" = false →
      strEndsWith (strToLower path) ".hdf5" = false →
      strEndsWith (strToLower path) ".csv" = true →
      load_vaex_df openFile fromCsv path = .ok (fromCsv path)) := by
  unfold load_vaex_df
  by_cases h1 : strEndsWith (strToLower path) ".parquet" <;>
    by_cases h2 : strEndsWith (strToLower path) ".hdf5" <;>
      by_cases h3 : strEndsWith (strToLower path) ".csv" <;>
        simp [h1, h2, h3]

/-- Witness for C6: the three dispatch outcomes on concrete paths. -/
theorem load_vaex_df_dispatch_witness :
    load_vaex_df (fun _ => ⟨["a"], []⟩) (fun _ => ⟨["b"], []⟩) "countries_eda.parquet"
      = .ok ⟨["a"], []⟩ ∧
    load_vaex_df (fun _ => ⟨["a"], []⟩) (fun _ => ⟨["b"], []⟩) "countries.csv"
      = .ok ⟨["b"], []⟩ ∧
    load_vaex_df (fun _ => ⟨["a"], []⟩) (fun _ => ⟨["b"], []⟩) "countries.json"
      = .error .unsupportedFormat := by
  refine ⟨?_, ?_, ?_⟩
  · exact (load_vaex_df_dispatch _ _ "countries_eda.parquet").2.1 (Or.inl (by decide))
  · exact (load_vaex_df_dispatch _ _ "countries.csv").2.2 (by decide) (by decide) (by decide)
  · exact (load_vaex_df_dispatch _ _ "countries.json").1.mpr (by decide)

/-! ## C5: `top_density` error behaviour -/

/-- A projection can only fail on a column absent from the table. -/
lemma Table.project_error_not_mem {t : Table} {cs : List String} {c : String}
    (h : t.project cs = .error (.missingColumn c)) : t.cols.contains c = false := by
  unfold Table.project at h
  cases hf : cs.find? (fun c => !(t.cols.contains c)) with
  | none => rw [hf] at h; exact absurd h (by simp)
  | some c0 =>
    rw [hf] at h
    have hc0 : c0 = c := by
      have := h
      simp only [Except.error.injEq, Err.missingColumn.injEq] at this
      exact this
    have := List.find?_some hf
    rw [hc0] at this
    simpa using this

/-- C5: `top_density` fails with the missing-column error for `density`
exactly when the density column is absent; when it is present, that
error is never raised. -/
theorem top_density_missing_column (vx : Table) (n : Nat) (cols? : Option (List String)) :
    (vx.hasCol "density" = false →
      top_density vx n cols? = .error (.missingColumn "density")) ∧
    (vx.hasCol "density" = true →
      top_density vx n cols? ≠ .error (.missingColumn "density")) := by
  constructor
  · intro h
    unfold top_density
    rw [h]
    simp
  · intro h
    unfold top_density
    rw [h]
    simp only [if_true]
    intro hbad
    set cols := (match cols? with
      | some cs => cs
      | none => ["cca3", "name_common", "region", "population", "area", "density"]) with hc
    cases hp : (vx.sortDesc "density").project cols with
    | ok t => rw [hp] at hbad; exact absurd hbad (by simp [Except.map])
    | error e =>
      rw [hp] at hbad
      simp only [Except.map, Except.error.injEq] at hbad
      rw [hbad] at hp
      have := Table.project_error_not_mem hp
      simp only [Table.sortDesc_cols] at this
      rw [Table.hasCol] at h
      rw [h] at this
      exact absurd this (by simp)

/-- Witness for C5: a table without density fails, one with density does
not. -/
theorem top_density_missing_column_witness :
    top_density ⟨["cca3"], [[.vStr "USA"]]⟩ 5 none
      = .error (.missingColumn "density") ∧
    top_density ⟨["density"], [[.vInt 3]]⟩ 5 (some ["density"])
      ≠ .error (.missingColumn "density") := by
  constructor
  · exact (top_density_missing_column ⟨["cca3"], [[.vStr "USA"]]⟩ 5 none).1 (by decide)
  · exact (top_density_missing_column ⟨["density"], [[.vInt 3]]⟩ 5 (some ["density"])).2 (by decide)

/-! ## Filter characterisation -/

@[simp] lemma Table.hasCol_filterRows (t : Table) (p : Row → Bool) (c : String) :
    (t.filterRows p).hasCol c = t.hasCol c := rfl

@[simp] lemma Table.getVal_filterRows (t : Table) (p : Row → Bool) :
    (t.filterRows p).getVal = t.getVal := rfl

lemma Table.filterRows_filterRows (t : Table) (p q : Row → Bool) :
    (t.filterRows p).filterRows q = t.filterRows fun r => p r && q r := by
  simp only [Table.filterRows, List.filter_filter]
  exact congrArg (Table.mk t.cols) (List.filter_congr fun x _ => by rw [Bool.and_comm])

@[simp] lemma Table.filterRows_true (t : Table) :
    (t.filterRows fun _ => true) = t := by
  cases t with
  | mk cols rows => simp [Table.filterRows]

lemma filterPred_eq_of_cols {t1 t2 : Table} (h : t1.cols = t2.cols)
    (reg : RegionArg) (m : Int) (M : Option Int) :
    filterPred t1 reg m M = filterPred t2 reg m M := by
  unfold filterPred
  rw [Table.getVal_eq_of_cols h, Table.hasCol_eq_of_cols h]

/-- Reformulation: `filter_countries` is a single pass of `filterRows` with the combined
predicate. -/
lemma filter_countries_eq (vx : Table) (reg : RegionArg) (m : Int) (M : Option Int) :
    filter_countries vx reg m M = vx.filterRows (filterPred vx reg m M) := by
  unfold filter_countries filterPred
  rcases htl : reg.toList? with _ | L
  · by_cases hp : vx.hasCol "population"
    · cases M with
      | none => simp [htl, hp, Table.filterRows_filterRows]
      | some mm => simp [htl, hp, Table.filterRows_filterRows]
    · simp [htl, hp]
  · by_cases hr : vx.hasCol "region"
    · by_cases hp : vx.hasCol "population"
      · cases M with
        | none => simp [htl, hr, hp, Table.filterRows_filterRows]
        | some mm => simp [htl, hr, hp, Table.filterRows_filterRows, Bool.and_assoc]
      · simp [htl, hr, hp]
    · by_cases hp : vx.hasCol "population"
      · cases M with
        | none => simp [htl, hr, hp, Table.filterRows_filterRows]
        | some mm => simp [htl, hr, hp, Table.filterRows_filterRows]
      · simp [htl, hr, hp]

/-! ## C2: region filtering and idempotence -/

/-- C2 counterexample: on a table with no region column,
`filter_countries` with region selector `["Asia"]` keeps a row whose
region value is not a member of the selector set, so the claim, which is
stated for every table, fails as stated. -/
theorem filter_countries_region_cex :
    (filter_countries ⟨["cca3"], [[.vStr "USA"]]⟩ (.many ["Asia"]) 0 none).rows
      = [[.vStr "USA"]] ∧
    Value.isin ((⟨["cca3"], [[.vStr "USA"]]⟩ : Table).getVal [.vStr "USA"] "region")
      ["Asia"] = false := by
  constructor <;> rfl

/-- C2 (amended): when the table has a region column, every row of
`filter_countries vx (region := R)` has its region value in `R`; and
filtering is idempotent with the same arguments, for every table and
every region selector. -/
theorem filter_countries_region_mem_and_idem (vx : Table) (R : List String)
    (min_pop : Int) (max_pop : Option Int) :
    (vx.hasCol "region" = true →
      ∀ r ∈ (filter_countries vx (.many R) min_pop max_pop).rows,
        (vx.getVal r "region").isin R = true) ∧
    (∀ reg : RegionArg,
      filter_countries (filter_countries vx reg min_pop max_pop) reg min_pop max_pop
        = filter_countries vx reg min_pop max_pop) := by
  constructor
  · intro hr r hrmem
    rw [filter_countries_eq] at hrmem
    rw [Table.mem_filterRows] at hrmem
    obtain ⟨-, hpred⟩ := hrmem
    unfold filterPred at hpred
    rw [Bool.and_eq_true] at hpred
    obtain ⟨hreg, -⟩ := hpred
    simp only [RegionArg.toList?] at hreg
    rw [hr] at hreg
    simpa using hreg
  · intro reg
    rw [filter_countries_eq vx, filter_countries_eq,
      filterPred_eq_of_cols (Table.filterRows_cols vx (filterPred vx reg min_pop max_pop)),
      Table.filterRows_filterRows]
    cases vx with
    | mk cols rows => simp [Table.filterRows]

/-- Witness for C2's amended theorem: a concrete region-bearing table,
with both the membership conclusion at a concrete kept row and
idempotence. -/
theorem filter_countries_region_mem_and_idem_witness :
    Value.isin
      ((⟨["region"], [[.vStr "Asia"], [.vStr "Europe"]]⟩ : Table).getVal
        [.vStr "Asia"] "region") ["Asia"] = true ∧
    filter_countries
        (filter_countries ⟨["region"], [[.vStr "Asia"], [.vStr "Europe"]]⟩
          (.many ["Asia"]) 0 none)
        (.many ["Asia"]) 0 none
      = filter_countries ⟨["region"], [[.vStr "Asia"], [.vStr "Europe"]]⟩
          (.many ["Asia"]) 0 none := by
  constructor
  · exact (filter_countries_region_mem_and_idem
      ⟨["region"], [[.vStr "Asia"], [.vStr "Europe"]]⟩ ["Asia"] 0 none).1
      (by decide) [.vStr "Asia"] (by decide)
  · exact (filter_countries_region_mem_and_idem
      ⟨["region"], [[.vStr "Asia"], [.vStr "Europe"]]⟩ ["Asia"] 0 none).2
      (.many ["Asia"])

/-! ## C7: population range filtering, no-ops, column/order preservation -/

/-- C7: with no region selector, `filter_countries` keeps exactly the
rows whose population is ≥ `m` (and ≤ `mm` when `M = some mm`) when the
population column exists; an absent population column makes the whole
call the identity, and an absent region column makes the region
predicate a no-op; the output keeps the input's columns, and its rows
are a subsequence (order preserved) of the input's. -/
theorem filter_countries_pop_range (vx : Table) (m : Int) (M : Option Int) :
    (vx.hasCol "population" = true →
      (filter_countries vx .noRegion m M).rows
        = vx.rows.filter fun r =>
            (vx.getVal r "population").geInt m &&
            (match M with
             | none => true
             | some mm => (vx.getVal r "population").leInt mm)) ∧
    (vx.hasCol "population" = false → filter_countries vx .noRegion m M = vx) ∧
    (∀ reg : RegionArg, vx.hasCol "region" = false →
      filter_countries vx reg m M = filter_countries vx .noRegion m M) ∧
    (filter_countries vx .noRegion m M).cols = vx.cols ∧
    (filter_countries vx .noRegion m M).rows.Sublist vx.rows := by
  refine ⟨?_, ?_, ?_, ?_, ?_⟩
  · intro hp
    rw [filter_countries_eq, Table.filterRows_rows]
    exact List.filter_congr fun r _ => by
      unfold filterPred
      simp [RegionArg.toList?, hp]
  · intro hp
    rw [filter_countries_eq]
    have : filterPred vx .noRegion m M = fun _ => true := by
      funext r
      unfold filterPred
      simp [RegionArg.toList?, hp]
    rw [this, Table.filterRows_true]
  · intro reg hr
    rw [filter_countries_eq, filter_countries_eq]
    have : filterPred vx reg m M = filterPred vx .noRegion m M := by
      funext r
      unfold filterPred
      cases reg <;> simp [RegionArg.toList?, hr]
    rw [this]
  · rw [filter_countries_eq]
    exact Table.filterRows_cols _ _
  · rw [filter_countries_eq, Table.filterRows_rows]
    exact List.filter_sublist _

/-- Witness for C7: the range filter on a concrete table, the absent
population column no-op, and the absent region column no-op. -/
theorem filter_countries_pop_range_witness :
    (filter_countries ⟨["population"], [[.vInt 5], [.vInt 50], [.vNull]]⟩
        .noRegion 10 (some 60)).rows = [[.vInt 50]] ∧
    filter_countries ⟨["cca3"], [[.vStr "USA"]]⟩ .noRegion 10 (some 60)
      = ⟨["cca3"], [[.vStr "USA"]]⟩ ∧
    filter_countries ⟨["population"], [[.vInt 5], [.vInt 50], [.vNull]]⟩
        (.one "Asia") 10 (some 60)
      = filter_countries ⟨["population"], [[.vInt 5], [.vInt 50], [.vNull]]⟩
          .noRegion 10 (some 60) := by
  refine ⟨?_, ?_, ?_⟩
  · exact ((filter_countries_pop_range
      ⟨["population"], [[.vInt 5], [.vInt 50], [.vNull]]⟩ 10 (some 60)).1
      (by decide)).trans (by decide)
  · exact (filter_countries_pop_range ⟨["cca3"], [[.vStr "USA"]]⟩ 10 (some 60)).2.1
      (by decide)
  · exact (filter_countries_pop_range
      ⟨["population"], [[.vInt 5], [.vInt 50], [.vNull]]⟩ 10 (some 60)).2.2.1
      (.one "Asia") (by decide)

/-! ## C10: the default call is not the identity -/

/-- C10: `filter_countries` with all default arguments still applies the
`population ≥ 0` predicate whenever a population column exists, so rows
with a null or negative population are dropped; in particular it is not
the identity on every table (witnessed by a concrete table with a null
and a negative population). -/
theorem filter_countries_defaults_not_id :
    (∀ vx : Table, vx.hasCol "population" = true →
      (filter_countries vx .noRegion 0 none).rows
        = vx.rows.filter fun r => (vx.getVal r "population").geInt 0) ∧
    filter_countries ⟨["population"], [[.vNull], [.vInt (-5)], [.vInt 7]]⟩
        .noRegion 0 none
      ≠ ⟨["population"], [[.vNull], [.vInt (-5)], [.vInt 7]]⟩ := by
  constructor
  · intro vx hp
    rw [filter_countries_eq, Table.filterRows_rows]
    exact List.filter_congr fun r _ => by
      unfold filterPred
      simp [RegionArg.toList?, hp]
  · decide

/-- Witness for C10: the default call on a concrete table with a null, a
negative and a positive population keeps exactly the positive row. -/
theorem filter_countries_defaults_not_id_witness :
    (filter_countries ⟨["population"], [[.vNull], [.vInt (-5)], [.vInt 7]]⟩
        .noRegion 0 none).rows = [[.vInt 7]] := by
  exact (filter_countries_defaults_not_id.1
    ⟨["population"], [[.vNull], [.vInt (-5)], [.vInt 7]]⟩ (by decide)).trans (by decide)

/-! ## Properties of the cleaning stages -/

lemma Table.setCol_cols_of_contains {t : Table} {c : String} (f : Row → Value)
    (h : t.cols.contains c = true) : (t.setCol c f).cols = t.cols := by
  unfold Table.setCol
  rw [if_pos h]

lemma Table.setCol_rows_of_contains {t : Table} {c : String} (f : Row → Value)
    (h : t.cols.contains c = true) :
    (t.setCol c f).rows = t.rows.map fun r => r.set (t.cols.indexOf c) (f r) := by
  unfold Table.setCol
  rw [if_pos h]

lemma Table.setCol_cols_of_not_contains {t : Table} {c : String} (f : Row → Value)
    (h : t.cols.contains c = false) : (t.setCol c f).cols = t.cols ++ [c] := by
  unfold Table.setCol
  rw [if_neg (by rw [h]; simp)]

lemma Table.setCol_rows_of_not_contains {t : Table} {c : String} (f : Row → Value)
    (h : t.cols.contains c = false) :
    (t.setCol c f).rows = t.rows.map fun r => r ++ [f r] := by
  unfold Table.setCol
  rw [if_neg (by rw [h]; simp)]

lemma Table.WF_setCol {t : Table} (c : String) (f : Row → Value) (h : t.WF) :
    (t.setCol c f).WF := by
  intro r hr
  by_cases hc : t.cols.contains c
  · rw [Table.setCol_rows_of_contains f hc] at hr
    rw [Table.setCol_cols_of_contains f hc]
    obtain ⟨r0, hr0, rfl⟩ := List.mem_map.mp hr
    rw [List.length_set]
    exact h r0 hr0
  · rw [Table.setCol_rows_of_not_contains f (by simpa using hc)] at hr
    rw [Table.setCol_cols_of_not_contains f (by simpa using hc)]
    obtain ⟨r0, hr0, rfl⟩ := List.mem_map.mp hr
    simp [h r0 hr0]

lemma Table.WF_filterRows {t : Table} (p : Row → Bool) (h : t.WF) :
    (t.filterRows p).WF := by
  intro r hr
  exact h r (List.mem_filter.mp hr).1

lemma cleanCapital_cols (vx : Table) : (cleanCapital vx).cols = vx.cols := by
  unfold cleanCapital
  split
  · exact Table.setCol_cols_of_contains _ (by assumption)
  · rfl

lemma cleanCapital_WF {vx : Table} (h : vx.WF) : (cleanCapital vx).WF := by
  unfold cleanCapital
  split
  · exact Table.WF_setCol _ _ h
  · exact h

lemma cleanPop_cols (vx : Table) : (cleanPop vx).cols = vx.cols := by
  unfold cleanPop
  split <;> rfl

lemma cleanPop_WF {vx : Table} (h : vx.WF) : (cleanPop vx).WF := by
  unfold cleanPop
  split
  · exact Table.WF_filterRows _ h
  · exact h

lemma cleanArea_cols (vx : Table) : (cleanArea vx).cols = vx.cols := by
  unfold cleanArea
  split <;> rfl

lemma cleanArea_WF {vx : Table} (h : vx.WF) : (cleanArea vx).WF := by
  unfold cleanArea
  split
  · exact Table.WF_filterRows _ h
  · exact h

lemma cleanPop_eq {vx : Table} (h : vx.hasCol "population" = true) :
    cleanPop vx = vx.filterRows fun r => (vx.getVal r "population").gtZero := by
  unfold cleanPop
  rw [if_pos h]

lemma cleanArea_eq {vx : Table} (h : vx.hasCol "area" = true) :
    cleanArea vx = vx.filterRows fun r => (vx.getVal r "area").gtZero := by
  unfold cleanArea
  rw [if_pos h]

lemma cleanDensity_eq {vx : Table} (hp : vx.hasCol "population" = true)
    (ha : vx.hasCol "area" = true) :
    cleanDensity vx
      = vx.setCol "density" fun r =>
          (vx.getVal r "population").divV (vx.getVal r "area") := by
  unfold cleanDensity
  rw [hp, ha]
  rfl

/-- A positive comparison pins down an actual numeric cell. -/
lemma Table.gtZero_getVal_some {t : Table} {r : Row} {c : String}
    (h : (t.getVal r c).gtZero = true) :
    ∃ (v : Value) (q : ℚ), r[t.cols.indexOf c]? = some v ∧
      v.toRat? = some q ∧ 0 < q ∧ t.getVal r c = v := by
  unfold Table.getVal at h ⊢
  cases hv : r[t.cols.indexOf c]? with
  | none =>
    rw [hv] at h
    exact absurd h (by simp [Value.gtZero, Value.toRat?])
  | some v =>
    rw [hv] at h
    obtain ⟨q, hq, hq0⟩ := Value.gtZero_iff.mp (by simpa using h)
    exact ⟨v, q, rfl, hq, hq0, rfl⟩

/-- Two distinct column names, the first present, have distinct
positions. -/
lemma indexOf_ne_of_ne {cols : List String} {c1 c2 : String}
    (h1 : c1 ∈ cols) (hne : c1 ≠ c2) :
    cols.indexOf c1 ≠ cols.indexOf c2 := by
  intro heq
  by_cases h2 : c2 ∈ cols
  · exact hne ((List.indexOf_inj h1 h2).mp heq)
  · have hlt := List.indexOf_lt_length.mpr h1
    rw [heq, List.indexOf_eq_length.mpr h2] at hlt
    exact absurd hlt (by simp)

lemma Value.divV_eq {v1 v2 : Value} {p a : ℚ}
    (h1 : v1.toRat? = some p) (h2 : v2.toRat? = some a) :
    v1.divV v2 = .vRat (p / a) := by
  unfold Value.divV
  rw [h1, h2]

/-- Under well-formedness, every row of `cleanDensity t` comes from a row
of `t`: all non-density cells are unchanged and the density cell is the
row-wise quotient. -/
lemma cleanDensity_rows_spec {t : Table} (hwf : t.WF)
    (hp : t.hasCol "population" = true) (ha : t.hasCol "area" = true) :
    ∀ rr ∈ (cleanDensity t).rows, ∃ r0 ∈ t.rows,
      (∀ c : String, c ∈ t.cols → c ≠ "density" →
          (cleanDensity t).getVal rr c = t.getVal r0 c) ∧
      (cleanDensity t).getVal rr "density"
        = (t.getVal r0 "population").divV (t.getVal r0 "area") := by
  intro rr hrr
  rw [cleanDensity_eq hp ha] at hrr ⊢
  by_cases hd : t.cols.contains "density"
  · rw [Table.setCol_rows_of_contains _ hd] at hrr
    obtain ⟨r0, hr0, rfl⟩ := List.mem_map.mp hrr
    have hdmem : "density" ∈ t.cols := by simpa using hd
    have hjlt : t.cols.indexOf "density" < r0.length := by
      rw [hwf r0 hr0]
      exact List.indexOf_lt_length.mpr hdmem
    refine ⟨r0, hr0, ?_, ?_⟩
    · intro c hc hcne
      unfold Table.getVal
      rw [Table.setCol_cols_of_contains _ hd]
      rw [List.getElem?_set_ne (indexOf_ne_of_ne hdmem (fun h => hcne h.symm))]
    · unfold Table.getVal
      rw [Table.setCol_cols_of_contains _ hd]
      rw [List.getElem?_set_self hjlt]
      rfl
  · have hd' : t.cols.contains "density" = false := by simpa using hd
    rw [Table.setCol_rows_of_not_contains _ hd'] at hrr
    obtain ⟨r0, hr0, rfl⟩ := List.mem_map.mp hrr
    have hdnot : "density" ∉ t.cols := by simpa using hd
    refine ⟨r0, hr0, ?_, ?_⟩
    · intro c hc hcne
      unfold Table.getVal
      rw [Table.setCol_cols_of_not_contains _ hd']
      rw [List.indexOf_append_of_mem hc]
      rw [List.getElem?_append_left]
      rw [hwf r0 hr0]
      exact List.indexOf_lt_length.mpr hc
    · unfold Table.getVal
      rw [Table.setCol_cols_of_not_contains _ hd']
      rw [List.indexOf_append_of_not_mem hdnot]
      have hidx : t.cols.length + List.indexOf "density" ["density"] = r0.length + 0 := by
        rw [hwf r0 hr0]
        simp [List.indexOf_cons_self]
      rw [hidx]
      rw [List.getElem?_append_right (by omega)]
      simp

/-! ## C1: cleaning produces positive rows with exact density -/

/-- C1: on a well-formed table with population and area columns, every
row of `clean_countries`' output has a numeric population `p > 0`, a
numeric area `a > 0`, and a density cell equal to exactly `p / a`
(density is only computed after the non-positive rows are dropped, so
the denominator is positive). -/
theorem clean_countries_pos_and_density (vx : Table) (hwf : vx.WF)
    (hp : vx.hasCol "population" = true) (ha : vx.hasCol "area" = true) :
    ∀ rr ∈ (clean_countries vx).rows,
      ∃ p a : ℚ,
        ((clean_countries vx).getVal rr "population").toRat? = some p ∧
        ((clean_countries vx).getVal rr "area").toRat? = some a ∧
        0 < p ∧ 0 < a ∧
        (clean_countries vx).getVal rr "density" = .vRat (p / a) := by
  unfold clean_countries
  intro rr hrr
  have c1 : (cleanCapital vx).cols = vx.cols := cleanCapital_cols vx
  have w1 : (cleanCapital vx).WF := cleanCapital_WF hwf
  have hp1 : (cleanCapital vx).hasCol "population" = true := by
    rw [Table.hasCol_eq_of_cols c1]; exact hp
  have ha1 : (cleanCapital vx).hasCol "area" = true := by
    rw [Table.hasCol_eq_of_cols c1]; exact ha
  have c2 : (cleanPop (cleanCapital vx)).cols = vx.cols :=
    (cleanPop_cols _).trans c1
  have w2 : (cleanPop (cleanCapital vx)).WF := cleanPop_WF w1
  have ha2 : (cleanPop (cleanCapital vx)).hasCol "area" = true := by
    rw [Table.hasCol_eq_of_cols c2]; exact ha
  have c3 : (cleanArea (cleanPop (cleanCapital vx))).cols = vx.cols :=
    (cleanArea_cols _).trans c2
  have w3 : (cleanArea (cleanPop (cleanCapital vx))).WF := cleanArea_WF w2
  have hp3 : (cleanArea (cleanPop (cleanCapital vx))).hasCol "population" = true := by
    rw [Table.hasCol_eq_of_cols c3]; exact hp
  have ha3 : (cleanArea (cleanPop (cleanCapital vx))).hasCol "area" = true := by
    rw [Table.hasCol_eq_of_cols c3]; exact ha
  obtain ⟨r0, hr0, hother, hdens⟩ := cleanDensity_rows_spec w3 hp3 ha3 rr hrr
  rw [cleanArea_eq ha2, Table.mem_filterRows] at hr0
  obtain ⟨hr0p, harea⟩ := hr0
  rw [cleanPop_eq hp1, Table.mem_filterRows] at hr0p
  obtain ⟨-, hpop⟩ := hr0p
  rw [Table.getVal_eq_of_cols (c1.trans c3.symm)] at hpop
  rw [Table.getVal_eq_of_cols (c2.trans c3.symm)] at harea
  obtain ⟨p, hps, hp0⟩ := Value.gtZero_iff.mp hpop
  obtain ⟨a, has, ha0⟩ := Value.gtZero_iff.mp harea
  have hpmem : "population" ∈ (cleanArea (cleanPop (cleanCapital vx))).cols :=
    (Table.hasCol_iff_mem _ _).mp hp3
  have hamem : "area" ∈ (cleanArea (cleanPop (cleanCapital vx))).cols :=
    (Table.hasCol_iff_mem _ _).mp ha3
  refine ⟨p, a, ?_, ?_, hp0, ha0, ?_⟩
  · rw [hother "population" hpmem (by decide), hps]
  · rw [hother "area" hamem (by decide), has]
  · rw [hdens, Value.divV_eq hps has]

/-- Witness for C1: the cleaned one-surviving-row table, at its concrete
row. -/
theorem clean_countries_pos_and_density_witness :
    ∃ p a : ℚ,
      ((clean_countries ⟨["population", "area"], [[.vInt 10, .vInt 4], [.vInt 0, .vInt 4]]⟩).getVal
          [.vInt 10, .vInt 4, .vRat (((10 : Int) : ℚ) / ((4 : Int) : ℚ))] "population").toRat?
        = some p ∧
      ((clean_countries ⟨["population", "area"], [[.vInt 10, .vInt 4], [.vInt 0, .vInt 4]]⟩).getVal
          [.vInt 10, .vInt 4, .vRat (((10 : Int) : ℚ) / ((4 : Int) : ℚ))] "area").toRat?
        = some a ∧
      0 < p ∧ 0 < a ∧
      (clean_countries ⟨["population", "area"], [[.vInt 10, .vInt 4], [.vInt 0, .vInt 4]]⟩).getVal
          [.vInt 10, .vInt 4, .vRat (((10 : Int) : ℚ) / ((4 : Int) : ℚ))] "density"
        = .vRat (p / a) := by
  have hrows : (clean_countries
      ⟨["population", "area"], [[.vInt 10, .vInt 4], [.vInt 0, .vInt 4]]⟩).rows
      = [[.vInt 10, .vInt 4, .vRat (((10 : Int) : ℚ) / ((4 : Int) : ℚ))]] := rfl
  exact clean_countries_pos_and_density
    ⟨["population", "area"], [[.vInt 10, .vInt 4], [.vInt 0, .vInt 4]]⟩
    (by intro r hr; fin_cases hr <;> rfl) (by decide) (by decide)
    [.vInt 10, .vInt 4, .vRat (((10 : Int) : ℚ) / ((4 : Int) : ℚ))]
    (by rw [hrows]; exact List.mem_singleton.mpr rfl)

/-! ## dedupFirst and grouping lemmas -/

lemma dedupFirst_cons (v : Value) (vs : List Value) :
    dedupFirst (v :: vs) = v :: dedupFirst (vs.filter fun w => !(w == v)) := by
  rw [dedupFirst]

lemma mem_dedupFirst : ∀ (l : List Value) (k : Value), k ∈ dedupFirst l ↔ k ∈ l := by
  have main : ∀ (n : Nat) (l : List Value), l.length ≤ n →
      ∀ k, (k ∈ dedupFirst l ↔ k ∈ l) := by
    intro n
    induction n with
    | zero =>
      intro l hl k
      rw [List.length_eq_zero.mp (Nat.le_zero.mp hl)]
      rw [dedupFirst]
    | succ n ih =>
      intro l hl k
      cases l with
      | nil => rw [dedupFirst]
      | cons v vs =>
        rw [dedupFirst_cons]
        have hlen : (vs.filter fun w => !(w == v)).length ≤ n :=
          le_trans (List.length_filter_le _ _) (Nat.le_of_succ_le_succ hl)
        by_cases hkv : k = v
        · subst hkv
          simp
        · simp only [List.mem_cons, hkv, false_or]
          rw [ih _ hlen k]
          simp [List.mem_filter, hkv]
  exact fun l k => main l.length l le_rfl k

lemma nodup_dedupFirst : ∀ (l : List Value), (dedupFirst l).Nodup := by
  have main : ∀ (n : Nat) (l : List Value), l.length ≤ n → (dedupFirst l).Nodup := by
    intro n
    induction n with
    | zero =>
      intro l hl
      rw [List.length_eq_zero.mp (Nat.le_zero.mp hl)]
      rw [dedupFirst]
      exact List.nodup_nil
    | succ n ih =>
      intro l hl
      cases l with
      | nil => rw [dedupFirst]; exact List.nodup_nil
      | cons v vs =>
        rw [dedupFirst_cons]
        have hlen : (vs.filter fun w => !(w == v)).length ≤ n :=
          le_trans (List.length_filter_le _ _) (Nat.le_of_succ_le_succ hl)
        refine List.Nodup.cons ?_ (ih _ hlen)
        intro hv
        have := (mem_dedupFirst _ v).mp hv
        simp [List.mem_filter] at this
  exact fun l => main l.length l le_rfl

/-- Grouping a list by the distinct values of a key partitions it: the
group sizes sum to the total length. -/
lemma sum_group_counts (key : Row → Value) :
    ∀ (rows : List Row),
      ((dedupFirst (rows.map key)).map fun k =>
          (rows.filter fun r => key r == k).length).sum = rows.length := by
  have main : ∀ (n : Nat) (rows : List Row), rows.length ≤ n →
      ((dedupFirst (rows.map key)).map fun k =>
          (rows.filter fun r => key r == k).length).sum = rows.length := by
    intro n
    induction n with
    | zero =>
      intro rows hl
      rw [List.length_eq_zero.mp (Nat.le_zero.mp hl)]
      simp [dedupFirst]
    | succ n ih =>
      intro rows hl
      cases rows with
      | nil => simp [dedupFirst]
      | cons r rest =>
        rw [List.map_cons, dedupFirst_cons, List.filter_map]
        have hcomp : ((fun w => !(w == key r)) ∘ key) = fun x => !(key x == key r) := rfl
        rw [hcomp]
        rw [List.map_cons, List.sum_cons]
        have hlenNe : (rest.filter fun x => !(key x == key r)).length ≤ n :=
          le_trans (List.length_filter_le _ _) (Nat.le_of_succ_le_succ hl)
        have hpoint : ∀ k ∈ dedupFirst ((rest.filter fun x => !(key x == key r)).map key),
            ((r :: rest).filter fun x => key x == k).length
              = ((rest.filter fun x => !(key x == key r)).filter
                  fun x => key x == k).length := by
          intro k hk
          obtain ⟨x0, hx0, hkx0⟩ := List.mem_map.mp ((mem_dedupFirst _ _).mp hk)
          have hx0ne : (key x0 == key r) = false := by
            simpa using (List.mem_filter.mp hx0).2
          have hkner : (key r == k) = false := by
            rw [← hkx0]
            rw [beq_eq_false_iff_ne] at hx0ne ⊢
            exact fun h => hx0ne h.symm
          rw [List.filter_cons]
          rw [hkner]
          simp only [Bool.false_eq_true, if_false]
          congr 1
          rw [List.filter_filter]
          refine (List.filter_congr ?_).symm
          intro x _
          cases hq : key x == k with
          | false => simp
          | true =>
            have hxk : key x = k := eq_of_beq hq
            have : (key x == key r) = false := by
              rw [beq_eq_false_iff_ne] at hkner ⊢
              rw [hxk]
              exact fun h => hkner h.symm
            simp [this]
        rw [List.map_congr_left hpoint]
        rw [ih _ hlenNe]
        have hhead : ((r :: rest).filter fun x => key x == key r).length
            = 1 + (rest.filter fun x => key x == key r).length := by
          rw [List.filter_cons]
          simp [Nat.add_comm]
        rw [hhead]
        have hpart := List.length_eq_length_filter_add (l := rest)
          (fun x => key x == key r)
        have hnot : (rest.filter (fun x => !(fun x => key x == key r) x)).length
            = (rest.filter fun x => !(key x == key r)).length := rfl
        simp only [List.length_cons]
        omega
  exact fun rows => main rows.length rows le_rfl

lemma aggColsFor_indexOf_region (vx : Table) :
    (aggColsFor vx).indexOf "region" = 0 := by
  unfold aggColsFor
  simp

lemma aggColsFor_indexOf_count (vx : Table) :
    (aggColsFor vx).indexOf "country_count" = 1 := by
  unfold aggColsFor
  simp only [List.cons_append]
  rw [List.indexOf_cons_ne _ (by decide)]
  simp

lemma Table.getVal_def (t : Table) (r : Row) (c : String) :
    t.getVal r c = (r[t.cols.indexOf c]?).getD .vNull := rfl

lemma aggRowFor_getElem_zero (vx : Table) (k : Value) :
    (aggRowFor vx k)[0]? = some k := by
  unfold aggRowFor
  simp only [List.cons_append, List.nil_append]
  simp

lemma aggRowFor_getElem_one (vx : Table) (k : Value) :
    (aggRowFor vx k)[1]?
      = some (.vInt ((vx.rows.filter fun r => vx.getVal r "region" == k).length : Int)) := by
  unfold aggRowFor
  simp only [List.cons_append, List.nil_append]
  simp

lemma getVal_aggRow_region {t2 vx : Table} (hcols : t2.cols = aggColsFor vx) (k : Value) :
    t2.getVal (aggRowFor vx k) "region" = k := by
  rw [Table.getVal_def, hcols, aggColsFor_indexOf_region, aggRowFor_getElem_zero]
  rfl

lemma getVal_aggRow_count {t2 vx : Table} (hcols : t2.cols = aggColsFor vx) (k : Value) :
    t2.getVal (aggRowFor vx k) "country_count"
      = .vInt ((vx.rows.filter fun r => vx.getVal r "region" == k).length : Int) := by
  rw [Table.getVal_def, hcols, aggColsFor_indexOf_count, aggRowFor_getElem_one]
  rfl

/-! ## C4: aggregation counts partition the table -/

/-- C4: when `agg_by_region` succeeds, the per-region counts of its
output sum exactly to the input's row count, and there is exactly one
output row per distinct region value of the input (the output's region
keys are duplicate-free and are exactly the input's region values). -/
theorem agg_by_region_counts (vx out : Table) (h : agg_by_region vx = .ok out) :
    (out.rows.map fun r => ((out.getVal r "country_count").toRat?).getD 0).sum
        = (vx.rows.length : ℚ) ∧
    (out.rows.map fun r => out.getVal r "region").Nodup ∧
    (∀ k : Value, (k ∈ out.rows.map fun r => out.getVal r "region")
        ↔ k ∈ vx.rows.map fun r => vx.getVal r "region") := by
  unfold agg_by_region at h
  by_cases hr : vx.hasCol "region"
  case neg => rw [if_neg (by simp [hr])] at h; exact absurd h (by simp)
  rw [if_pos hr] at h
  have hout : out = Table.sortDesc
      ⟨aggColsFor vx, (dedupFirst (vx.rows.map fun r => vx.getVal r "region")).map
        (aggRowFor vx)⟩ "country_count" := by
    exact ((Except.ok.injEq _ _).mp h).symm
  have hcols : out.cols = aggColsFor vx := by rw [hout]; rfl
  have hperm : out.rows.Perm
      ((dedupFirst (vx.rows.map fun r => vx.getVal r "region")).map (aggRowFor vx)) := by
    rw [hout]
    exact List.mergeSort_perm _ _
  refine ⟨?_, ?_, ?_⟩
  · have hsum := ((hperm.map fun r => ((out.getVal r "country_count").toRat?).getD 0).sum_eq)
    rw [hsum, List.map_map]
    have hptw : ((fun r => ((out.getVal r "country_count").toRat?).getD 0) ∘ aggRowFor vx)
        = fun k => (((vx.rows.filter fun r => vx.getVal r "region" == k).length : ℕ) : ℚ) := by
      funext k
      simp only [Function.comp]
      rw [getVal_aggRow_count hcols]
      simp [Value.toRat?]
    rw [hptw]
    have : ((dedupFirst (vx.rows.map fun r => vx.getVal r "region")).map
          fun k => (((vx.rows.filter fun r => vx.getVal r "region" == k).length : ℕ) : ℚ))
        = ((dedupFirst (vx.rows.map fun r => vx.getVal r "region")).map
            fun k => (vx.rows.filter fun r => vx.getVal r "region" == k).length).map
          (fun n : ℕ => (n : ℚ)) := by
      rw [List.map_map]
      rfl
    rw [this, ← Nat.cast_list_sum]
    rw [sum_group_counts]
  · have hnd : ((dedupFirst (vx.rows.map fun r => vx.getVal r "region")).map
        (aggRowFor vx)).map (fun r => out.getVal r "region")
        = dedupFirst (vx.rows.map fun r => vx.getVal r "region") := by
      rw [List.map_map]
      have : ((fun r => out.getVal r "region") ∘ aggRowFor vx) = id := by
        funext k
        exact getVal_aggRow_region hcols k
      rw [this, List.map_id]
    rw [List.Perm.nodup_iff (hperm.map fun r => out.getVal r "region")]
    rw [hnd]
    exact nodup_dedupFirst _
  · intro k
    rw [List.Perm.mem_iff (hperm.map fun r => out.getVal r "region")]
    have hnd : ((dedupFirst (vx.rows.map fun r => vx.getVal r "region")).map
        (aggRowFor vx)).map (fun r => out.getVal r "region")
        = dedupFirst (vx.rows.map fun r => vx.getVal r "region") := by
      rw [List.map_map]
      have : ((fun r => out.getVal r "region") ∘ aggRowFor vx) = id := by
        funext k0
        exact getVal_aggRow_region hcols k0
      rw [this, List.map_id]
    rw [hnd]
    exact mem_dedupFirst _ _

unseal List.mergeSort List.merge dedupFirst in
/-- Witness for C4: the spec's own example — two rows in region Europe
and one in Asia: counts 2 and 1 sum to 3, regions are distinct. -/
theorem agg_by_region_counts_witness :
    ((agg_by_region ⟨["region"], [[.vStr "Europe"], [.vStr "Asia"], [.vStr "Europe"]]⟩ =
        .ok ⟨["region", "country_count"],
          [[.vStr "Europe", .vInt 2], [.vStr "Asia", .vInt 1]]⟩) ∧
      ((⟨["region", "country_count"],
          [[.vStr "Europe", .vInt 2], [.vStr "Asia", .vInt 1]]⟩ : Table).rows.map fun r =>
            (((⟨["region", "country_count"],
              [[.vStr "Europe", .vInt 2], [.vStr "Asia", .vInt 1]]⟩ : Table).getVal
                r "country_count").toRat?).getD 0).sum = ((3 : ℕ) : ℚ)) := by
  have hok : agg_by_region ⟨["region"], [[.vStr "Europe"], [.vStr "Asia"], [.vStr "Europe"]]⟩ =
      .ok ⟨["region", "country_count"],
        [[.vStr "Europe", .vInt 2], [.vStr "Asia", .vInt 1]]⟩ := rfl
  exact ⟨hok, (agg_by_region_counts _ _ hok).1⟩

/-! ## Ranking lemmas -/

lemma rankLE_trans (vx : Table) (c : String) :
    ∀ a b d : Row, rankLE vx c a b → rankLE vx c b d → rankLE vx c a d := by
  intro a b d hab hbd
  simp only [rankLE, decide_eq_true_eq] at hab hbd ⊢
  exact le_trans hbd hab

lemma rankLE_total (vx : Table) (c : String) :
    ∀ a b : Row, rankLE vx c a b || rankLE vx c b a := by
  intro a b
  simp only [rankLE]
  rcases le_total ((vx.getVal b c).sortKey) ((vx.getVal a c).sortKey) with h | h
  · simp [h]
  · simp [h]

lemma Table.projectRow_sortDesc (vx : Table) (c : String) (cs : List String) :
    (vx.sortDesc c).projectRow cs = vx.projectRow cs := rfl

/-- The common contract of the two rankers: when
`sort descending / project / head n` succeeds, the output has at most
`n` rows, and those rows are the projections of the first `n` rows of a
stable descending reordering of the input rows. -/
lemma sort_project_head_spec (vx : Table) (c : String) (cs : List String) (n : Nat)
    (out : Table)
    (h : (((vx.sortDesc c).project cs).map fun t => t.head n) = .ok out) :
    out.rows.length ≤ n ∧ out.cols = cs ∧
    ∃ s : List Row, s.Perm vx.rows ∧
      s.Pairwise (fun r1 r2 => rankLE vx c r1 r2 = true) ∧
      (∀ ties : List Row, ties.Sublist vx.rows →
          ties.Pairwise (fun r1 r2 =>
            (vx.getVal r1 c).sortKey = (vx.getVal r2 c).sortKey) →
          ties.Sublist s) ∧
      out.rows = (s.take n).map (vx.projectRow cs) := by
  cases hp : (vx.sortDesc c).project cs with
  | error e =>
    rw [hp] at h
    exact absurd h (by simp [Except.map])
  | ok t0 =>
    rw [hp] at h
    simp only [Except.map, Except.ok.injEq] at h
    unfold Table.project at hp
    cases hf : cs.find? (fun c0 => !((vx.sortDesc c).cols.contains c0)) with
    | some c0 => rw [hf] at hp; exact absurd hp (by simp)
    | none =>
      rw [hf] at hp
      simp only [Except.ok.injEq] at hp
      have hout : out = Table.head
          ⟨cs, ((vx.sortDesc c).rows.map ((vx.sortDesc c).projectRow cs))⟩ n := by
        rw [← h, ← hp]
      refine ⟨?_, ?_, ?_⟩
      · rw [hout]
        simp only [Table.head_rows]
        exact (List.length_take_le _ _)
      · rw [hout]
        rfl
      · refine ⟨vx.rows.mergeSort (rankLE vx c), List.mergeSort_perm _ _, ?_, ?_, ?_⟩
        · exact List.sorted_mergeSort (rankLE_trans vx c) (rankLE_total vx c) vx.rows
        · intro ties hsub hpw
          refine List.sublist_mergeSort (rankLE_trans vx c) (rankLE_total vx c) ?_ hsub
          refine hpw.imp ?_
          intro r1 r2 hk
          simp only [rankLE, decide_eq_true_eq]
          exact le_of_eq hk.symm
        · rw [hout]
          simp only [Table.head_rows]
          rw [Table.projectRow_sortDesc]
          rw [← List.map_take]
          rfl

/-! ## C3: the rankers' top-N contract -/

/-- C3: for every table and positive `n`, whenever `top_population` or
`top_density` returns a table, that table has at most `n` rows, and its
rows are exactly the column-projections of the first `n` rows of a
reordering `s` of the input rows that is sorted descending in the
ranking column and stable: every sublist of the input whose key values
are tied reappears, in the input order, as a sublist of `s` — so no row
is duplicated or dropped by the reordering. -/
theorem rankers_top_n (vx : Table) (n : Nat) (cols? : Option (List String)) (hn : 0 < n) :
    (∀ out : Table, top_population vx n cols? = .ok out →
      out.rows.length ≤ n ∧
      ∃ s : List Row, s.Perm vx.rows ∧
        s.Pairwise (fun r1 r2 => rankLE vx "population" r1 r2 = true) ∧
        (∀ ties : List Row, ties.Sublist vx.rows →
            ties.Pairwise (fun r1 r2 =>
              (vx.getVal r1 "population").sortKey = (vx.getVal r2 "population").sortKey) →
            ties.Sublist s) ∧
        out.rows = (s.take n).map (vx.projectRow out.cols)) ∧
    (∀ out : Table, top_density vx n cols? = .ok out →
      out.rows.length ≤ n ∧
      ∃ s : List Row, s.Perm vx.rows ∧
        s.Pairwise (fun r1 r2 => rankLE vx "density" r1 r2 = true) ∧
        (∀ ties : List Row, ties.Sublist vx.rows →
            ties.Pairwise (fun r1 r2 =>
              (vx.getVal r1 "density").sortKey = (vx.getVal r2 "density").sortKey) →
            ties.Sublist s) ∧
        out.rows = (s.take n).map (vx.projectRow out.cols)) := by
  constructor
  · intro out h
    unfold top_population at h
    obtain ⟨h1, h2, s, hs1, hs2, hs3, hs4⟩ := sort_project_head_spec vx "population" _ n out h
    exact ⟨h1, s, hs1, hs2, hs3, by rw [h2]; exact hs4⟩
  · intro out h
    unfold top_density at h
    by_cases hd : vx.hasCol "density"
    · rw [if_pos hd] at h
      obtain ⟨h1, h2, s, hs1, hs2, hs3, hs4⟩ := sort_project_head_spec vx "density" _ n out h
      exact ⟨h1, s, hs1, hs2, hs3, by rw [h2]; exact hs4⟩
    · rw [if_neg hd] at h
      exact absurd h (by simp)

unseal List.mergeSort List.merge in
/-- Witness for C3: a two-row table with integer keys; `top_population`
keeps the population-30 row, `top_density` the density-9 row, each of
length ≤ 1. -/
theorem rankers_top_n_witness :
    top_population
        ⟨["cca3", "name_common", "region", "population", "area", "density"],
          [[.vStr "AAA", .vStr "A", .vStr "X", .vInt 30, .vInt 6, .vInt 5],
           [.vStr "BBB", .vStr "B", .vStr "Y", .vInt 10, .vInt 2, .vInt 9]]⟩ 1 none
      = .ok ⟨["cca3", "name_common", "region", "population", "area", "density"],
          [[.vStr "AAA", .vStr "A", .vStr "X", .vInt 30, .vInt 6, .vInt 5]]⟩ ∧
    (⟨["cca3", "name_common", "region", "population", "area", "density"],
        [[.vStr "AAA", .vStr "A", .vStr "X", .vInt 30, .vInt 6, .vInt 5]]⟩ : Table).rows.length
      ≤ 1 ∧
    top_density
        ⟨["cca3", "name_common", "region", "population", "area", "density"],
          [[.vStr "AAA", .vStr "A", .vStr "X", .vInt 30, .vInt 6, .vInt 5],
           [.vStr "BBB", .vStr "B", .vStr "Y", .vInt 10, .vInt 2, .vInt 9]]⟩ 1 none
      = .ok ⟨["cca3", "name_common", "region", "population", "area", "density"],
          [[.vStr "BBB", .vStr "B", .vStr "Y", .vInt 10, .vInt 2, .vInt 9]]⟩ ∧
    (⟨["cca3", "name_common", "region", "population", "area", "density"],
        [[.vStr "BBB", .vStr "B", .vStr "Y", .vInt 10, .vInt 2, .vInt 9]]⟩ : Table).rows.length
      ≤ 1 := by
  have hp : top_population
      ⟨["cca3", "name_common", "region", "population", "area", "density"],
        [[.vStr "AAA", .vStr "A", .vStr "X", .vInt 30, .vInt 6, .vInt 5],
         [.vStr "BBB", .vStr "B", .vStr "Y", .vInt 10, .vInt 2, .vInt 9]]⟩ 1 none
      = .ok ⟨["cca3", "name_common", "region", "population", "area", "density"],
        [[.vStr "AAA", .vStr "A", .vStr "X", .vInt 30, .vInt 6, .vInt 5]]⟩ := by rfl
  have hd : top_density
      ⟨["cca3", "name_common", "region", "population", "area", "density"],
        [[.vStr "AAA", .vStr "A", .vStr "X", .vInt 30, .vInt 6, .vInt 5],
         [.vStr "BBB", .vStr "B", .vStr "Y", .vInt 10, .vInt 2, .vInt 9]]⟩ 1 none
      = .ok ⟨["cca3", "name_common", "region", "population", "area", "density"],
        [[.vStr "BBB", .vStr "B", .vStr "Y", .vInt 10, .vInt 2, .vInt 9]]⟩ := by rfl
  exact ⟨hp, ((rankers_top_n _ 1 none (by decide)).1 _ hp).1,
    hd, ((rankers_top_n _ 1 none (by decide)).2 _ hd).1⟩

/-! ## Idempotence of cleaning -/

/-- Writing back each row's existing cell is the identity on a table. -/
lemma Table.setCol_eq_self {t : Table} {c : String} {f : Row → Value}
    (hc : t.cols.contains c = true)
    (h : ∀ r ∈ t.rows, ∀ v, r[t.cols.indexOf c]? = some v → f r = v) :
    t.setCol c f = t := by
  unfold Table.setCol
  rw [if_pos hc]
  cases t with
  | mk cols rows =>
    simp only [Table.mk.injEq, true_and]
    have hrow : ∀ r ∈ rows, r.set (cols.indexOf c) (f r) = r := by
      intro r hr
      cases hv : r[cols.indexOf c]? with
      | none =>
        exact List.set_eq_of_length_le (List.getElem?_eq_none_iff.mp hv)
      | some v =>
        rw [h r hr v hv]
        exact List.set_of_getElem_eq hv
    exact (List.map_congr_left hrow).trans (List.map_id rows)

lemma cleanCapital_eq_self {t : Table}
    (h : t.hasCol "capital" = true → ∀ r ∈ t.rows, t.getVal r "capital" ≠ .vNull) :
    cleanCapital t = t := by
  unfold cleanCapital
  by_cases hc : t.hasCol "capital"
  · rw [if_pos hc]
    refine Table.setCol_eq_self hc ?_
    intro r hr v hv
    have hval : t.getVal r "capital" = v := by
      rw [Table.getVal_def, hv]
      rfl
    have hnn : v ≠ .vNull := hval ▸ h hc r hr
    rw [hval]
    cases v <;> first | rfl | exact absurd rfl hnn
  · rw [if_neg hc]

lemma cleanPop_eq_self {t : Table}
    (h : t.hasCol "population" = true →
      ∀ r ∈ t.rows, (t.getVal r "population").gtZero = true) :
    cleanPop t = t := by
  unfold cleanPop
  by_cases hp : t.hasCol "population"
  · rw [if_pos hp]
    exact Table.filterRows_eq_self (h hp)
  · rw [if_neg hp]

lemma cleanArea_eq_self {t : Table}
    (h : t.hasCol "area" = true →
      ∀ r ∈ t.rows, (t.getVal r "area").gtZero = true) :
    cleanArea t = t := by
  unfold cleanArea
  by_cases ha : t.hasCol "area"
  · rw [if_pos ha]
    exact Table.filterRows_eq_self (h ha)
  · rw [if_neg ha]

lemma cleanDensity_eq_self {t : Table}
    (h : (t.hasCol "population" && t.hasCol "area") = true →
      t.cols.contains "density" = true ∧
      ∀ r ∈ t.rows,
        r[t.cols.indexOf "density"]?
          = some ((t.getVal r "population").divV (t.getVal r "area"))) :
    cleanDensity t = t := by
  unfold cleanDensity
  by_cases hcond : (t.hasCol "population" && t.hasCol "area") = true
  · rw [if_pos hcond]
    obtain ⟨hd, hcell⟩ := h hcond
    refine Table.setCol_eq_self hd ?_
    intro r hr v hv
    rw [hcell r hr] at hv
    exact (Option.some.injEq _ _).mp hv
  · rw [if_neg hcond]

lemma cleanPop_rows_subset (t : Table) : ∀ r ∈ (cleanPop t).rows, r ∈ t.rows := by
  unfold cleanPop
  split
  · intro r hr
    exact (Table.mem_filterRows.mp hr).1
  · intro r hr
    exact hr

lemma cleanArea_rows_subset (t : Table) : ∀ r ∈ (cleanArea t).rows, r ∈ t.rows := by
  unfold cleanArea
  split
  · intro r hr
    exact (Table.mem_filterRows.mp hr).1
  · intro r hr
    exact hr

lemma cleanPop_pos {t : Table} (hp : t.hasCol "population" = true) :
    ∀ r ∈ (cleanPop t).rows, ((cleanPop t).getVal r "population").gtZero = true := by
  rw [cleanPop_eq hp]
  intro r hr
  rw [Table.getVal_filterRows]
  exact (Table.mem_filterRows.mp hr).2

lemma cleanArea_pos {t : Table} (ha : t.hasCol "area" = true) :
    ∀ r ∈ (cleanArea t).rows, ((cleanArea t).getVal r "area").gtZero = true := by
  rw [cleanArea_eq ha]
  intro r hr
  rw [Table.getVal_filterRows]
  exact (Table.mem_filterRows.mp hr).2

/-- After the capital-filling step, no well-formed row has a null
capital cell. -/
lemma cleanCapital_capital_ne_null {vx : Table} (hwf : vx.WF) :
    ∀ r ∈ (cleanCapital vx).rows, (cleanCapital vx).hasCol "capital" = true →
      (cleanCapital vx).getVal r "capital" ≠ .vNull := by
  intro r hr hc
  have hcv : vx.hasCol "capital" = true := by
    rw [← Table.hasCol_eq_of_cols (cleanCapital_cols vx)]
    exact hc
  unfold cleanCapital at hr ⊢
  rw [if_pos hcv] at hr ⊢
  rw [Table.setCol_rows_of_contains _ hcv] at hr
  obtain ⟨r0, hr0, rfl⟩ := List.mem_map.mp hr
  have hlen : vx.cols.indexOf "capital" < r0.length := by
    rw [hwf r0 hr0]
    exact List.indexOf_lt_length.mpr (by simpa [Table.hasCol] using hcv)
  rw [Table.getVal_def, Table.setCol_cols_of_contains _ hcv]
  rw [List.getElem?_set_self hlen]
  exact Value.fillna_ne_null (by simp)

lemma contains_append_singleton_ne {cols : List String} {c0 d : String} (hne : c0 ≠ d) :
    (cols ++ [d]).contains c0 = cols.contains c0 := by
  cases hb : cols.contains c0 with
  | true =>
    have hm : c0 ∈ cols := by simpa using hb
    simp [List.mem_append, hm]
  | false =>
    have hm : c0 ∉ cols := by simpa using hb
    simp [List.mem_append, hm, hne]

lemma cleanDensity_hasCol_other {t : Table} (c0 : String) (hne : c0 ≠ "density") :
    (cleanDensity t).hasCol c0 = t.hasCol c0 := by
  unfold cleanDensity
  split
  · unfold Table.setCol
    by_cases hd : t.cols.contains "density"
    · rw [if_pos hd]
      rfl
    · rw [if_neg hd]
      unfold Table.hasCol
      exact contains_append_singleton_ne hne
  · rfl

lemma cleanDensity_contains_density {t : Table}
    (hcond : (t.hasCol "population" && t.hasCol "area") = true) :
    (cleanDensity t).cols.contains "density" = true := by
  unfold cleanDensity
  rw [if_pos hcond]
  unfold Table.setCol
  by_cases hd : t.cols.contains "density"
  · rw [if_pos hd]
    exact hd
  · rw [if_neg hd]
    simp

/-- Any table whose capital cells are non-null and whose population and
area cells are positive is a fixed point of cleaning once its density
column is (re)computed. -/
lemma clean_countries_cleanDensity_fixed {D : Table} (w3 : D.WF)
    (hCapNeD : ∀ r ∈ D.rows, D.hasCol "capital" = true → D.getVal r "capital" ≠ .vNull)
    (hPopPosD : D.hasCol "population" = true →
      ∀ r ∈ D.rows, (D.getVal r "population").gtZero = true)
    (hAreaPosD : D.hasCol "area" = true →
      ∀ r ∈ D.rows, (D.getVal r "area").gtZero = true) :
    clean_countries (cleanDensity D) = cleanDensity D := by
  by_cases hcond : (D.hasCol "population" && D.hasCol "area") = true
  · have hpa : D.hasCol "population" = true ∧ D.hasCol "area" = true := by
      simpa [Bool.and_eq_true] using hcond
    have hp3 : D.hasCol "population" = true := hpa.1
    have ha3 : D.hasCol "area" = true := hpa.2
    have P1 : (cleanDensity D).hasCol "capital" = true →
        ∀ r ∈ (cleanDensity D).rows, (cleanDensity D).getVal r "capital" ≠ .vNull := by
      intro hc r hr
      obtain ⟨r0, hr0, hpres, hdens⟩ := cleanDensity_rows_spec w3 hp3 ha3 r hr
      have hcD : D.hasCol "capital" = true := by
        rw [← cleanDensity_hasCol_other "capital" (by decide)]
        exact hc
      rw [hpres "capital" ((Table.hasCol_iff_mem _ _).mp hcD) (by decide)]
      exact hCapNeD r0 hr0 hcD
    have P2 : (cleanDensity D).hasCol "population" = true →
        ∀ r ∈ (cleanDensity D).rows,
          ((cleanDensity D).getVal r "population").gtZero = true := by
      intro _ r hr
      obtain ⟨r0, hr0, hpres, hdens⟩ := cleanDensity_rows_spec w3 hp3 ha3 r hr
      rw [hpres "population" ((Table.hasCol_iff_mem _ _).mp hp3) (by decide)]
      exact hPopPosD hp3 r0 hr0
    have P3 : (cleanDensity D).hasCol "area" = true →
        ∀ r ∈ (cleanDensity D).rows,
          ((cleanDensity D).getVal r "area").gtZero = true := by
      intro _ r hr
      obtain ⟨r0, hr0, hpres, hdens⟩ := cleanDensity_rows_spec w3 hp3 ha3 r hr
      rw [hpres "area" ((Table.hasCol_iff_mem _ _).mp ha3) (by decide)]
      exact hAreaPosD ha3 r0 hr0
    have P4 : ((cleanDensity D).hasCol "population" && (cleanDensity D).hasCol "area") = true →
        (cleanDensity D).cols.contains "density" = true ∧
        ∀ r ∈ (cleanDensity D).rows,
          r[(cleanDensity D).cols.indexOf "density"]?
            = some (((cleanDensity D).getVal r "population").divV
                ((cleanDensity D).getVal r "area")) := by
      intro _
      refine ⟨cleanDensity_contains_density hcond, ?_⟩
      intro r hr
      obtain ⟨r0, hr0, hpres, hdens⟩ := cleanDensity_rows_spec w3 hp3 ha3 r hr
      rw [hpres "population" ((Table.hasCol_iff_mem _ _).mp hp3) (by decide)]
      rw [hpres "area" ((Table.hasCol_iff_mem _ _).mp ha3) (by decide)]
      obtain ⟨p, hps, hp0⟩ := Value.gtZero_iff.mp (hPopPosD hp3 r0 hr0)
      obtain ⟨a, has, ha0⟩ := Value.gtZero_iff.mp (hAreaPosD ha3 r0 hr0)
      have hdivV : (D.getVal r0 "population").divV (D.getVal r0 "area") = .vRat (p / a) :=
        Value.divV_eq hps has
      rw [Table.getVal_def] at hdens
      cases hv : r[(cleanDensity D).cols.indexOf "density"]? with
      | none =>
        rw [hv] at hdens
        rw [hdivV] at hdens
        exact absurd hdens (by simp)
      | some v =>
        rw [hv] at hdens
        simp only [Option.getD_some] at hdens
        rw [hdens]
    show cleanDensity (cleanArea (cleanPop (cleanCapital (cleanDensity D)))) = cleanDensity D
    rw [cleanCapital_eq_self P1, cleanPop_eq_self P2, cleanArea_eq_self P3,
      cleanDensity_eq_self P4]
  · have hCD : cleanDensity D = D := by
      unfold cleanDensity
      rw [if_neg hcond]
    rw [hCD]
    show cleanDensity (cleanArea (cleanPop (cleanCapital D))) = D
    rw [cleanCapital_eq_self (fun hc r hr => hCapNeD r hr hc),
      cleanPop_eq_self hPopPosD, cleanArea_eq_self hAreaPosD, hCD]

/-! ## C9: cleaning is idempotent -/

/-- C9: on well-formed tables, `clean_countries` is idempotent —
re-cleaning fills no further capitals, drops no further rows, and
recomputes the same density values. -/
theorem clean_countries_idem (vx : Table) (hwf : vx.WF) :
    clean_countries (clean_countries vx) = clean_countries vx := by
  have w1 : (cleanCapital vx).WF := cleanCapital_WF hwf
  have w2 : (cleanPop (cleanCapital vx)).WF := cleanPop_WF w1
  have w3 : (cleanArea (cleanPop (cleanCapital vx))).WF := cleanArea_WF w2
  have c1 := cleanCapital_cols vx
  have c2 : (cleanPop (cleanCapital vx)).cols = vx.cols := (cleanPop_cols _).trans c1
  have c3 : (cleanArea (cleanPop (cleanCapital vx))).cols = vx.cols :=
    (cleanArea_cols _).trans c2
  have hCapNeD : ∀ r ∈ (cleanArea (cleanPop (cleanCapital vx))).rows,
      (cleanArea (cleanPop (cleanCapital vx))).hasCol "capital" = true →
      (cleanArea (cleanPop (cleanCapital vx))).getVal r "capital" ≠ .vNull := by
    intro r hr hc
    have hrA : r ∈ (cleanCapital vx).rows :=
      cleanPop_rows_subset _ r (cleanArea_rows_subset _ r hr)
    have hcA : (cleanCapital vx).hasCol "capital" = true := by
      rw [Table.hasCol_eq_of_cols (c1.trans c3.symm)]
      exact hc
    rw [Table.getVal_eq_of_cols (c3.trans c1.symm)]
    exact cleanCapital_capital_ne_null hwf r hrA hcA
  have hPopPosD : (cleanArea (cleanPop (cleanCapital vx))).hasCol "population" = true →
      ∀ r ∈ (cleanArea (cleanPop (cleanCapital vx))).rows,
        ((cleanArea (cleanPop (cleanCapital vx))).getVal r "population").gtZero = true := by
    intro hp r hr
    have hpA : (cleanCapital vx).hasCol "population" = true := by
      rw [Table.hasCol_eq_of_cols (c1.trans c3.symm)]
      exact hp
    have hrB : r ∈ (cleanPop (cleanCapital vx)).rows := cleanArea_rows_subset _ r hr
    rw [Table.getVal_eq_of_cols (c3.trans c2.symm)]
    exact cleanPop_pos hpA r hrB
  have hAreaPosD : (cleanArea (cleanPop (cleanCapital vx))).hasCol "area" = true →
      ∀ r ∈ (cleanArea (cleanPop (cleanCapital vx))).rows,
        ((cleanArea (cleanPop (cleanCapital vx))).getVal r "area").gtZero = true := by
    intro ha r hr
    have haB : (cleanPop (cleanCapital vx)).hasCol "area" = true := by
      rw [Table.hasCol_eq_of_cols (c2.trans c3.symm)]
      exact ha
    exact cleanArea_pos haB r hr
  exact clean_countries_cleanDensity_fixed w3 hCapNeD hPopPosD hAreaPosD

/-- Witness for C9: idempotence on a concrete table with a null capital,
an invalid row, and a density to recompute. -/
theorem clean_countries_idem_witness :
    clean_countries (clean_countries
        ⟨["capital", "population", "area"],
          [[.vNull, .vInt 5, .vInt 2], [.vStr "Paris", .vInt 0, .vInt 3]]⟩)
      = clean_countries
        ⟨["capital", "population", "area"],
          [[.vNull, .vInt 5, .vInt 2], [.vStr "Paris", .vInt 0, .vInt 3]]⟩ :=
  clean_countries_idem
    ⟨["capital", "population", "area"],
      [[.vNull, .vInt 5, .vInt 2], [.vStr "Paris", .vInt 0, .vInt 3]]⟩
    (by intro r hr; fin_cases hr <;> rfl)

/-! ## C8: the USA/FRA worked example -/

lemma perm_pair_eq {α : Type} {s : List α} {a b : α} (h : s.Perm [a, b]) :
    s = [a, b] ∨ s = [b, a] := by
  have hlen : s.length = 2 := by simpa using h.length_eq
  cases s with
  | nil => simp at hlen
  | cons x t =>
    cases t with
    | nil => simp at hlen
    | cons y t2 =>
      cases t2 with
      | cons z t3 => simp at hlen
      | nil =>
        have hx : x ∈ [a, b] := h.mem_iff.mp (by simp)
        rcases (by simpa using hx : x = a ∨ x = b) with rfl | rfl
        · left
          have hy : [y].Perm [b] := (List.perm_cons x).mp h
          rw [List.perm_singleton.mp hy]
        · right
          have hy : [y].Perm [a] := (List.perm_cons x).mp (h.trans (List.Perm.swap x a []))
          rw [List.perm_singleton.mp hy]

unseal List.mergeSort List.merge in
/-- C8: on the spec's two-row USA/FRA input, cleaning adds densities
331000000/9834000 ≈ 33.65 and 67000000/551695 ≈ 121.48 (each within
0.05 of the spec's rounded figure), `top_population` with N = 1 returns
exactly the USA row, and `top_density` with N = 1 returns exactly the
FRA row (both projected to the table's own columns). -/
theorem clean_rank_example :
    clean_countries exCountries = exCleaned ∧
    |usaDensity - 3365/100| < 5/100 ∧
    |fraDensity - 12148/100| < 5/100 ∧
    top_population (clean_countries exCountries) 1
        (some ["cca3", "population", "area", "density"])
      = .ok ⟨["cca3", "population", "area", "density"], [usaCleanRow]⟩ ∧
    top_density (clean_countries exCountries) 1
        (some ["cca3", "population", "area", "density"])
      = .ok ⟨["cca3", "population", "area", "density"], [fraCleanRow]⟩ := by
  have hclean : clean_countries exCountries = exCleaned := rfl
  refine ⟨hclean, ?_, ?_, ?_, ?_⟩
  · rw [abs_sub_lt_iff]
    constructor <;> (unfold usaDensity; push_cast; norm_num)
  · rw [abs_sub_lt_iff]
    constructor <;> (unfold fraDensity; push_cast; norm_num)
  · rfl
  · rw [hclean]
    have hs : exCleaned.rows.mergeSort (rankLE exCleaned "density")
        = [fraCleanRow, usaCleanRow] := by
      rcases perm_pair_eq (List.mergeSort_perm exCleaned.rows (rankLE exCleaned "density"))
        with h1 | h2
      · exfalso
        have hpair := List.sorted_mergeSort (rankLE_trans exCleaned "density")
          (rankLE_total exCleaned "density") exCleaned.rows
        rw [h1] at hpair
        have hle : rankLE exCleaned "density" usaCleanRow fraCleanRow = true :=
          (List.pairwise_cons.mp hpair).1 fraCleanRow (by simp)
        have hq := of_decide_eq_true hle
        have e1 : (exCleaned.getVal fraCleanRow "density").sortKey = fraDensity := rfl
        have e2 : (exCleaned.getVal usaCleanRow "density").sortKey = usaDensity := rfl
        rw [e1, e2] at hq
        unfold usaDensity fraDensity at hq
        push_cast at hq
        norm_num at hq
      · exact h2
    have hsort : exCleaned.sortDesc "density" = ⟨exCleaned.cols, [fraCleanRow, usaCleanRow]⟩ := by
      unfold Table.sortDesc
      rw [hs]
    unfold top_density
    rw [if_pos (by rfl)]
    rw [hsort]
    rfl
